import Mathlib

/-!
Shallow embedding of the Library Management System core
(`Book`, `Member`, `Library` classes of the repository's source) and
proofs of the specification's claims about it.

Modelling conventions:
* Python `dict`s become association lists (`List (κ × α)`) with
  first-match lookup; insertion appends at the end (dict insertion
  order), update replaces the value of the first matching key in place.
* Timestamps are integers counting seconds; `timedelta(days=14)` is
  `14 * 86400` seconds, and Python's `timedelta.days` (floor of the
  day count) is `Int.fdiv _ 86400`.
* Monetary amounts are integers of currency units (every fine computed
  by the source is `overdue_days * 1.0`, an integral value).
* The source reads `datetime.now()` inside `issue_book`/`return_book`;
  following the specification's explicit-time-parameter design note,
  the current time is passed as an explicit `now` argument.
* Fallible operations return `Except LibError _`; the caller keeps the
  previous state on an error, exactly as the mutating Python methods
  leave the object untouched when they bail out before mutating.
* `str.strip`, `str.title`, `str.lower` are re-implemented over
  `List Char` (`pyStrip`, `pyTitle`, `pyLower`).
-/

/-- Whitespace test used by `pyStrip` (ASCII whitespace, as relevant here). -/
def isSpaceChar (c : Char) : Bool :=
  c = ' ' || c = '\t' || c = '\n' || c = '\r'

/-- Python `str.strip()`: drop leading and trailing whitespace. -/
def pyStrip (s : String) : String :=
  ⟨((s.data.dropWhile isSpaceChar).reverse.dropWhile isSpaceChar).reverse⟩

/-- Helper for `pyTitle`: the Boolean records whether the previous character
was alphabetic. -/
def pyTitleAux : Bool → List Char → List Char
  | _, [] => []
  | prevAlpha, c :: cs =>
    (if c.isAlpha then (if prevAlpha then c.toLower else c.toUpper) else c)
      :: pyTitleAux c.isAlpha cs

/-- Python `str.title()`: first letter of each alphabetic run upper-cased,
the rest lower-cased. -/
def pyTitle (s : String) : String := ⟨pyTitleAux false s.data⟩

/-- Python `str.lower()`. -/
def pyLower (s : String) : String := ⟨s.data.map Char.toLower⟩

/-- First-match lookup in an association list (Python `d[k]` / `k in d`). -/
def lookupKey {κ α : Type} [DecidableEq κ] : List (κ × α) → κ → Option α
  | [], _ => none
  | (k, v) :: rest, key => if k = key then some v else lookupKey rest key

/-- Remove the first entry with the given key (Python `d.pop(k)`). -/
def eraseKey {κ α : Type} [DecidableEq κ] : List (κ × α) → κ → List (κ × α)
  | [], _ => []
  | (k, v) :: rest, key => if k = key then rest else (k, v) :: eraseKey rest key

/-- Replace the value of the first entry with the given key
(Python `d[k] = v` for a key already present). -/
def updateKey {κ α : Type} [DecidableEq κ] : List (κ × α) → κ → α → List (κ × α)
  | [], _, _ => []
  | (k, v) :: rest, key, v' =>
    if k = key then (key, v') :: rest else (k, v) :: updateKey rest key v'

instance {ε α : Type} [DecidableEq ε] [DecidableEq α] :
    DecidableEq (Except ε α) := fun a b =>
  match a, b with
  | .error e, .error e' =>
    decidable_of_iff (e = e') ⟨fun h => h ▸ rfl, fun h => by cases h; rfl⟩
  | .error _, .ok _ => isFalse fun h => Except.noConfusion h
  | .ok _, .error _ => isFalse fun h => Except.noConfusion h
  | .ok x, .ok y =>
    decidable_of_iff (x = y) ⟨fun h => h ▸ rfl, fun h => by cases h; rfl⟩

/-- Fixed loan period: `timedelta(days=14)` in the source. -/
def loanPeriodDays : Int := 14

/-- Seconds per day, the granularity of the timestamp model. -/
def secondsPerDay : Int := 86400

/-- Fine rate: `$1 per day fine` in the source (`overdue_days * 1.0`). -/
def dailyFineRate : Int := 1

/-- Whole days from `b` to `a`, i.e. Python `(a - b).days` on a
`timedelta` measured in seconds (floor division). -/
def daysBetween (a b : Int) : Int := (a - b).fdiv secondsPerDay

/-- The error taxonomy of the core (the source signals these as
`False, message` results). -/
inductive LibError where
  | NoCopiesAvailable
  | AlreadyBorrowed
  | NotBorrowedByMember
  | BookNotFound
  | MemberNotFound
  | InvalidCopyCount
  | InvalidMemberData
deriving DecidableEq

/-- The issue record stored in `Book.issued_to` (the Python dict with keys
`member_id`, `member_name`, `issue_date`, `due_date`). -/
structure Loan where
  member_id : Nat
  member_name : String
  issue_date : Int
  due_date : Int
deriving DecidableEq

/-- The four values of the `return_info` dict built by `Book.return_book`. -/
structure ReturnInfo where
  days_borrowed : Int
  is_overdue : Bool
  overdue_days : Int
  fine : Int
deriving DecidableEq

/-- The `Book` class: one title's copy inventory and active loans. -/
structure Book where
  book_id : Nat
  title : String
  author : String
  isbn : String
  total_copies : Int
  available_copies : Int
  issued_to : List (Nat × Loan)
deriving DecidableEq

/-- `Book.__init__`: fresh entry with `total = available = copies` and no
loans (the identifier is drawn from the ledger's counter by the caller). -/
def Book.init (book_id : Nat) (title author isbn : String) (copies : Int) : Book :=
  { book_id, title, author, isbn,
    total_copies := copies, available_copies := copies, issued_to := [] }

/-- `Book.is_available`: `available_copies > 0`. -/
def Book.is_available (b : Book) : Bool := b.available_copies > 0

/-- `Book.issue_book(member_id, member_name)` with the current time passed
explicitly. Checks availability first, then the duplicate loan, then
stores the record and decrements the available count. -/
def Book.issue_book (b : Book) (member_id : Nat) (member_name : String)
    (now : Int) : Except LibError (Loan × Book) :=
  if ¬ b.is_available then .error .NoCopiesAvailable
  else if (lookupKey b.issued_to member_id).isSome then .error .AlreadyBorrowed
  else
    let issue_record : Loan :=
      { member_id, member_name, issue_date := now,
        due_date := now + loanPeriodDays * secondsPerDay }
    .ok (issue_record,
      { b with issued_to := b.issued_to ++ [(member_id, issue_record)],
               available_copies := b.available_copies - 1 })

/-- `Book.return_book(member_id)` with the current time passed explicitly:
pops the loan, increments the available count and computes the
`return_info` values. -/
def Book.return_book (b : Book) (member_id : Nat) (now : Int) :
    Except LibError (ReturnInfo × Book) :=
  match lookupKey b.issued_to member_id with
  | none => .error .NotBorrowedByMember
  | some issue_record =>
    let b' : Book :=
      { b with issued_to := eraseKey b.issued_to member_id,
               available_copies := b.available_copies + 1 }
    let info : ReturnInfo :=
      { days_borrowed := daysBetween now issue_record.issue_date,
        is_overdue := decide (issue_record.due_date < now),
        overdue_days :=
          if issue_record.due_date < now then daysBetween now issue_record.due_date
          else 0,
        fine :=
          if issue_record.due_date < now then
            (daysBetween now issue_record.due_date) * dailyFineRate
          else 0 }
    .ok (info, b')

/-- The `Member` class: identity, borrowed book identifiers, fines. -/
structure Member where
  member_id : Nat
  name : String
  email : String
  borrowed_books : List Nat
  total_fines : Int
deriving DecidableEq

/-- `Member.borrow_book`: append the book identifier. -/
def Member.borrow_book (m : Member) (book_id : Nat) : Member :=
  { m with borrowed_books := m.borrowed_books ++ [book_id] }

/-- `Member.return_book`: remove the first matching identifier, report
whether one was found (Python `list.remove`). -/
def Member.return_book (m : Member) (book_id : Nat) : Member × Bool :=
  if book_id ∈ m.borrowed_books then
    ({ m with borrowed_books := m.borrowed_books.erase book_id }, true)
  else (m, false)

/-- `Member.add_fine`: add to the cumulative total. -/
def Member.add_fine (m : Member) (amount : Int) : Member :=
  { m with total_fines := m.total_fines + amount }

/-- The `Library` class: collections, ISBN index and (per the spec's
design note replacing the Python class-level counters) the
identifier counters owned by the ledger. -/
structure Library where
  name : String
  books : List (Nat × Book)
  members : List (Nat × Member)
  isbn_index : List (String × Nat)
  book_id_counter : Nat
  member_id_counter : Nat
deriving DecidableEq

/-- `Library.__init__` plus the source's initial counter values
(`Book.book_id_counter = 1`, `Member.member_id_counter = 100`). -/
def Library.init (name : String) : Library :=
  { name, books := [], members := [], isbn_index := [],
    book_id_counter := 1, member_id_counter := 100 }

/-- `Library.add_book(title, author, isbn, copies)`: normalize, reject a
non-positive copy count, merge into an existing entry when the ISBN is
already indexed, otherwise create a fresh entry. (An indexed ISBN whose
book identifier is missing from the collection would be a `KeyError` in
Python; it is modelled as `BookNotFound`.) -/
def Library.add_book (lib : Library) (title author isbn : String)
    (copies : Int) : Except LibError (Nat × Library) :=
  let title := pyTitle (pyStrip title)
  let author := pyTitle (pyStrip author)
  let isbn := pyStrip isbn
  if copies ≤ 0 then .error .InvalidCopyCount
  else
    match lookupKey lib.isbn_index isbn with
    | some existing_book_id =>
      match lookupKey lib.books existing_book_id with
      | some existing_book =>
        let book' :=
          { existing_book with
            total_copies := existing_book.total_copies + copies,
            available_copies := existing_book.available_copies + copies }
        .ok (existing_book_id,
          { lib with books := updateKey lib.books existing_book_id book' })
      | none => .error .BookNotFound
    | none =>
      let book := Book.init lib.book_id_counter title author isbn copies
      .ok (lib.book_id_counter,
        { lib with
          books := lib.books ++ [(lib.book_id_counter, book)],
          isbn_index := lib.isbn_index ++ [(isbn, lib.book_id_counter)],
          book_id_counter := lib.book_id_counter + 1 })

/-- `Library.register_member(name, email)`: normalize, reject empty data,
allocate the next member identifier. -/
def Library.register_member (lib : Library) (name email : String) :
    Except LibError (Nat × Library) :=
  let name := pyTitle (pyStrip name)
  let email := pyLower (pyStrip email)
  if name = "" ∨ email = "" then .error .InvalidMemberData
  else
    let member : Member :=
      { member_id := lib.member_id_counter, name, email,
        borrowed_books := [], total_fines := 0 }
    .ok (lib.member_id_counter,
      { lib with
        members := lib.members ++ [(lib.member_id_counter, member)],
        member_id_counter := lib.member_id_counter + 1 })

/-- `Library.issue_book(book_id, member_id)`: existence checks, delegate to
the entry, then record the borrow on the member. -/
def Library.issue_book (lib : Library) (book_id member_id : Nat) (now : Int) :
    Except LibError (Loan × Library) :=
  match lookupKey lib.books book_id with
  | none => .error .BookNotFound
  | some book =>
    match lookupKey lib.members member_id with
    | none => .error .MemberNotFound
    | some member =>
      match book.issue_book member_id member.name now with
      | .error e => .error e
      | .ok (issue_record, book') =>
        .ok (issue_record,
          { lib with
            books := updateKey lib.books book_id book',
            members := updateKey lib.members member_id
              (member.borrow_book book_id) })

/-- `Library.return_book(book_id, member_id)`: existence checks, delegate
to the entry, remove the identifier from the member's list and, when the
return is overdue, add the fine. -/
def Library.return_book (lib : Library) (book_id member_id : Nat) (now : Int) :
    Except LibError (ReturnInfo × Library) :=
  match lookupKey lib.books book_id with
  | none => .error .BookNotFound
  | some book =>
    match lookupKey lib.members member_id with
    | none => .error .MemberNotFound
    | some member =>
      match book.return_book member_id now with
      | .error e => .error e
      | .ok (info, book') =>
        let member₁ := (member.return_book book_id).1
        let member₂ := if info.is_overdue then member₁.add_fine info.fine else member₁
        .ok (info,
          { lib with
            books := updateKey lib.books book_id book',
            members := updateKey lib.members member_id member₂ })

/-- One call on a single catalog entry (for sequences of `issue`/`return`
calls in the invariant claims). -/
inductive BookOp where
  | issue (member_id : Nat) (member_name : String) (now : Int)
  | ret (member_id : Nat) (now : Int)
deriving DecidableEq

/-- Apply one call to an entry; a failed call leaves the entry unchanged,
as the Python methods return before mutating anything. -/
def applyOp (b : Book) (op : BookOp) : Book :=
  match op with
  | .issue member_id member_name now =>
    match b.issue_book member_id member_name now with
    | .ok (_, b') => b'
    | .error _ => b
  | .ret member_id now =>
    match b.return_book member_id now with
    | .ok (_, b') => b'
    | .error _ => b

/-- Run a sequence of calls on one entry. -/
def runOps (b : Book) (ops : List BookOp) : Book := ops.foldl applyOp b

/-- One ledger operation (for reachable-state claims). -/
inductive LibOp where
  | registerBook (title author isbn : String) (copies : Int)
  | registerMember (name email : String)
  | issueBook (book_id member_id : Nat) (now : Int)
  | returnBook (book_id member_id : Nat) (now : Int)
deriving DecidableEq

/-- Apply one ledger operation; a failed operation leaves the ledger
unchanged. -/
def stepLib (lib : Library) (op : LibOp) : Library :=
  match op with
  | .registerBook t a i c =>
    match lib.add_book t a i c with
    | .ok (_, lib') => lib'
    | .error _ => lib
  | .registerMember n e =>
    match lib.register_member n e with
    | .ok (_, lib') => lib'
    | .error _ => lib
  | .issueBook bid mid now =>
    match lib.issue_book bid mid now with
    | .ok (_, lib') => lib'
    | .error _ => lib
  | .returnBook bid mid now =>
    match lib.return_book bid mid now with
    | .ok (_, lib') => lib'
    | .error _ => lib

/-- Run a sequence of ledger operations from a fresh ledger. -/
def runLib (name : String) (ops : List LibOp) : Library :=
  ops.foldl stepLib (Library.init name)

/-- Is there an active loan record for `member_id` on the book at
`book_id`? -/
def hasLoan (lib : Library) (book_id member_id : Nat) : Bool :=
  match lookupKey lib.books book_id with
  | some book => (lookupKey book.issued_to member_id).isSome
  | none => false

section AssocLemmas

variable {κ α : Type} [DecidableEq κ]

theorem lookupKey_eq_none {l : List (κ × α)} {k : κ} :
    lookupKey l k = none ↔ ∀ p ∈ l, p.1 ≠ k := by
  induction l with
  | nil => simp [lookupKey]
  | cons hd tl ih =>
    obtain ⟨k₀, v₀⟩ := hd
    by_cases h : k₀ = k
    · subst h
      simp [lookupKey]
    · simp [lookupKey, h, ih]

theorem lookupKey_some_mem {l : List (κ × α)} {k : κ} {v : α}
    (h : lookupKey l k = some v) : (k, v) ∈ l := by
  induction l with
  | nil => simp [lookupKey] at h
  | cons hd tl ih =>
    obtain ⟨k₀, v₀⟩ := hd
    by_cases hk : k₀ = k
    · subst hk
      simp [lookupKey] at h
      subst h
      exact List.mem_cons_self _ _
    · simp [lookupKey, hk] at h
      exact List.mem_cons_of_mem _ (ih h)

theorem lookupKey_append_some {l₁ l₂ : List (κ × α)} {k : κ} {v : α}
    (h : lookupKey l₁ k = some v) : lookupKey (l₁ ++ l₂) k = some v := by
  induction l₁ with
  | nil => simp [lookupKey] at h
  | cons hd tl ih =>
    obtain ⟨k₀, v₀⟩ := hd
    by_cases hk : k₀ = k
    · subst hk
      simp [lookupKey] at h ⊢
      exact h
    · simp [lookupKey, hk] at h ⊢
      exact ih h

theorem lookupKey_append_none {l₁ l₂ : List (κ × α)} {k : κ}
    (h : lookupKey l₁ k = none) :
    lookupKey (l₁ ++ l₂) k = lookupKey l₂ k := by
  induction l₁ with
  | nil => simp
  | cons hd tl ih =>
    obtain ⟨k₀, v₀⟩ := hd
    by_cases hk : k₀ = k
    · subst hk
      simp [lookupKey] at h
    · simp [lookupKey, hk] at h ⊢
      exact ih h

theorem eraseKey_sublist (l : List (κ × α)) (k : κ) :
    List.Sublist (eraseKey l k) l := by
  induction l with
  | nil => simp [eraseKey]
  | cons hd tl ih =>
    obtain ⟨k₀, v₀⟩ := hd
    by_cases h : k₀ = k
    · simp only [eraseKey, if_pos h]
      exact List.sublist_cons_self _ _
    · simp only [eraseKey, if_neg h]
      exact List.Sublist.cons₂ _ ih

theorem length_eraseKey {l : List (κ × α)} {k : κ} {v : α}
    (h : lookupKey l k = some v) : (eraseKey l k).length + 1 = l.length := by
  induction l with
  | nil => simp [lookupKey] at h
  | cons hd tl ih =>
    obtain ⟨k₀, v₀⟩ := hd
    by_cases hk : k₀ = k
    · simp [eraseKey, hk]
    · simp [lookupKey, hk] at h
      simp [eraseKey, hk, ih h]

theorem lookupKey_eraseKey_ne {l : List (κ × α)} {k k' : κ} (h : k' ≠ k) :
    lookupKey (eraseKey l k) k' = lookupKey l k' := by
  induction l with
  | nil => simp [eraseKey]
  | cons hd tl ih =>
    obtain ⟨k₀, v₀⟩ := hd
    by_cases hk : k₀ = k
    · subst hk
      simp [eraseKey, lookupKey, Ne.symm h]
    · by_cases hk' : k₀ = k'
      · subst hk'
        simp [eraseKey, hk, lookupKey]
      · simp [eraseKey, hk, lookupKey, hk', ih]

theorem lookupKey_eraseKey_self {l : List (κ × α)} {k : κ}
    (hnd : (l.map Prod.fst).Nodup) : lookupKey (eraseKey l k) k = none := by
  induction l with
  | nil => simp [eraseKey, lookupKey]
  | cons hd tl ih =>
    obtain ⟨k₀, v₀⟩ := hd
    simp only [List.map_cons, List.nodup_cons] at hnd
    by_cases hk : k₀ = k
    · subst hk
      simp only [eraseKey, if_pos rfl]
      rw [lookupKey_eq_none]
      intro p hp hcontra
      exact hnd.1 (hcontra ▸ List.mem_map_of_mem Prod.fst hp)
    · simp [eraseKey, hk, lookupKey, ih hnd.2]

theorem updateKey_map_fst (l : List (κ × α)) (k : κ) (v : α) :
    (updateKey l k v).map Prod.fst = l.map Prod.fst := by
  induction l with
  | nil => simp [updateKey]
  | cons hd tl ih =>
    obtain ⟨k₀, v₀⟩ := hd
    by_cases hk : k₀ = k
    · subst hk
      simp [updateKey]
    · simp [updateKey, hk, ih]

theorem lookupKey_updateKey_self {l : List (κ × α)} {k : κ} {v₀ : α}
    (h : lookupKey l k = some v₀) (v : α) :
    lookupKey (updateKey l k v) k = some v := by
  induction l with
  | nil => simp [lookupKey] at h
  | cons hd tl ih =>
    obtain ⟨k₀, v₀'⟩ := hd
    by_cases hk : k₀ = k
    · subst hk
      simp [updateKey, lookupKey]
    · simp [lookupKey, hk] at h
      simp [updateKey, hk, lookupKey, ih h]

theorem lookupKey_updateKey_ne {l : List (κ × α)} {k k' : κ} (h : k' ≠ k)
    (v : α) : lookupKey (updateKey l k v) k' = lookupKey l k' := by
  induction l with
  | nil => simp [updateKey]
  | cons hd tl ih =>
    obtain ⟨k₀, v₀⟩ := hd
    by_cases hk : k₀ = k
    · subst hk
      simp [updateKey, lookupKey, Ne.symm h]
    · by_cases hk' : k₀ = k'
      · subst hk'
        simp [updateKey, hk, lookupKey]
      · simp [updateKey, hk, lookupKey, hk', ih]

theorem mem_updateKey {l : List (κ × α)} {k : κ} {v : α} {p : κ × α}
    (h : p ∈ updateKey l k v) : p = (k, v) ∨ p ∈ l := by
  induction l with
  | nil => simp [updateKey] at h
  | cons hd tl ih =>
    obtain ⟨k₀, v₀⟩ := hd
    by_cases hk : k₀ = k
    · subst hk
      rcases List.mem_cons.mp (by simpa [updateKey] using h) with h' | h'
      · exact Or.inl h'
      · exact Or.inr (List.mem_cons_of_mem _ h')
    · rcases List.mem_cons.mp (by simpa [updateKey, hk] using h) with h' | h'
      · exact Or.inr (h' ▸ List.mem_cons_self _ _)
      · rcases ih h' with h'' | h''
        · exact Or.inl h''
        · exact Or.inr (List.mem_cons_of_mem _ h'')

end AssocLemmas

theorem issue_book_ok {b : Book} {mid : Nat} {nm : String} {now : Int}
    {rec : Loan} {b' : Book}
    (h : b.issue_book mid nm now = .ok (rec, b')) :
    0 < b.available_copies ∧ lookupKey b.issued_to mid = none ∧
    rec = ⟨mid, nm, now, now + loanPeriodDays * secondsPerDay⟩ ∧
    b' = { b with issued_to := b.issued_to ++ [(mid, rec)],
                  available_copies := b.available_copies - 1 } := by
  unfold Book.issue_book Book.is_available at h
  by_cases h1 : 0 < b.available_copies
  · rw [if_neg (by simp [h1])] at h
    cases h2 : lookupKey b.issued_to mid with
    | some _ => rw [h2] at h; simp at h
    | none =>
      rw [h2] at h
      simp only [Option.isSome_none, Bool.false_eq_true, if_false,
        Except.ok.injEq, Prod.mk.injEq] at h
      exact ⟨h1, rfl, h.1.symm, by rw [← h.2, ← h.1]⟩
  · rw [if_pos (by simpa using h1)] at h
    simp at h

theorem issue_book_eq {b : Book} {mid : Nat} (nm : String) (now : Int)
    (h1 : 0 < b.available_copies) (h2 : lookupKey b.issued_to mid = none) :
    b.issue_book mid nm now =
      .ok (⟨mid, nm, now, now + loanPeriodDays * secondsPerDay⟩,
        { b with
          issued_to := b.issued_to ++
            [(mid, ⟨mid, nm, now, now + loanPeriodDays * secondsPerDay⟩)],
          available_copies := b.available_copies - 1 }) := by
  unfold Book.issue_book Book.is_available
  rw [if_neg (by simp [h1]), h2]
  simp

theorem return_book_ok {b : Book} {mid : Nat} {now : Int}
    {info : ReturnInfo} {b' : Book}
    (h : b.return_book mid now = .ok (info, b')) :
    ∃ rec, lookupKey b.issued_to mid = some rec ∧
      info = ⟨daysBetween now rec.issue_date, decide (rec.due_date < now),
        (if rec.due_date < now then daysBetween now rec.due_date else 0),
        (if rec.due_date < now then daysBetween now rec.due_date * dailyFineRate
         else 0)⟩ ∧
      b' = { b with issued_to := eraseKey b.issued_to mid,
                    available_copies := b.available_copies + 1 } := by
  unfold Book.return_book at h
  cases hl : lookupKey b.issued_to mid with
  | none => rw [hl] at h; simp at h
  | some rec =>
    rw [hl] at h
    simp only [Except.ok.injEq, Prod.mk.injEq] at h
    exact ⟨rec, rfl, h.1.symm, h.2.symm⟩

theorem return_book_eq {b : Book} {mid : Nat} {rec : Loan} (now : Int)
    (h : lookupKey b.issued_to mid = some rec) :
    b.return_book mid now =
      .ok (⟨daysBetween now rec.issue_date, decide (rec.due_date < now),
        (if rec.due_date < now then daysBetween now rec.due_date else 0),
        (if rec.due_date < now then daysBetween now rec.due_date * dailyFineRate
         else 0)⟩,
        { b with issued_to := eraseKey b.issued_to mid,
                 available_copies := b.available_copies + 1 }) := by
  unfold Book.return_book
  rw [h]

/-- The catalog-entry invariant of the specification: the loan keys are
distinct, available + active loans = total, and available is
non-negative. -/
def BookInv (b : Book) : Prop :=
  (b.issued_to.map Prod.fst).Nodup ∧
  b.available_copies + (b.issued_to.length : Int) = b.total_copies ∧
  0 ≤ b.available_copies

theorem BookInv_applyOp {b : Book} (h : BookInv b) (op : BookOp) :
    BookInv (applyOp b op) := by
  obtain ⟨hnd, hsum, hpos⟩ := h
  cases op with
  | issue mid nm now =>
    cases hb : b.issue_book mid nm now with
    | error e =>
      simp only [applyOp, hb]
      exact ⟨hnd, hsum, hpos⟩
    | ok p =>
      obtain ⟨rec, b'⟩ := p
      simp only [applyOp, hb]
      obtain ⟨havail, hnone, hrec, hb'⟩ := issue_book_ok hb
      subst hb'
      refine ⟨?_, ?_, by show (0 : Int) ≤ b.available_copies - 1; omega⟩
      · show (List.map Prod.fst (b.issued_to ++ [(mid, rec)])).Nodup
        rw [List.map_append, List.nodup_append]
        refine ⟨hnd, by simp, ?_⟩
        intro a ha ha'
        simp only [List.map_cons, List.map_nil, List.mem_singleton] at ha'
        subst ha'
        obtain ⟨q, hq, hqa⟩ := List.mem_map.mp ha
        exact lookupKey_eq_none.mp hnone q hq hqa
      · show b.available_copies - 1 +
          ((b.issued_to ++ [(mid, rec)]).length : Int) = b.total_copies
        simp only [List.length_append, List.length_cons, List.length_nil]
        push_cast
        omega
  | ret mid now =>
    cases hb : b.return_book mid now with
    | error e =>
      simp only [applyOp, hb]
      exact ⟨hnd, hsum, hpos⟩
    | ok p =>
      obtain ⟨info, b'⟩ := p
      simp only [applyOp, hb]
      obtain ⟨rec, hsome, hinfo, hb'⟩ := return_book_ok hb
      subst hb'
      have hlen := length_eraseKey hsome
      have hlen' : ((eraseKey b.issued_to mid).length : Int) + 1 =
          (b.issued_to.length : Int) := by exact_mod_cast hlen
      refine ⟨?_, ?_, ?_⟩
      · show (List.map Prod.fst (eraseKey b.issued_to mid)).Nodup
        exact List.Nodup.sublist ((eraseKey_sublist _ _).map Prod.fst) hnd
      · show b.available_copies + 1 +
          ((eraseKey b.issued_to mid).length : Int) = b.total_copies
        omega
      · show (0 : Int) ≤ b.available_copies + 1
        omega

theorem BookInv_runOps {b : Book} (h : BookInv b) (ops : List BookOp) :
    BookInv (runOps b ops) := by
  induction ops generalizing b with
  | nil => exact h
  | cons op rest ih => exact ih (BookInv_applyOp h op)

/-- C1: For every Book Catalog Entry (freshly created with a positive copy
count, as `Library.add_book` does) and every finite sequence of `issue`
and `return` calls on it, successful or failed, the entry satisfies
available copies + number of active loan records = total copies, with the
available count never negative and never exceeding the total. -/
theorem C1_copy_conservation (book_id : Nat) (title author isbn : String)
    (copies : Int) (hcopies : 0 < copies) (ops : List BookOp) :
    (runOps (Book.init book_id title author isbn copies) ops).available_copies +
        (((runOps (Book.init book_id title author isbn copies) ops).issued_to.length : Int)) =
      (runOps (Book.init book_id title author isbn copies) ops).total_copies ∧
    0 ≤ (runOps (Book.init book_id title author isbn copies) ops).available_copies ∧
    (runOps (Book.init book_id title author isbn copies) ops).available_copies ≤
      (runOps (Book.init book_id title author isbn copies) ops).total_copies := by
  have h : BookInv (Book.init book_id title author isbn copies) :=
    ⟨by simp [Book.init], by simp [Book.init], le_of_lt hcopies⟩
  obtain ⟨hnd, hsum, hpos⟩ := BookInv_runOps h ops
  exact ⟨hsum, hpos, by omega⟩

theorem C1_copy_conservation_witness :
    (runOps (Book.init 1 "T" "A" "I" 2)
          [.issue 100 "M" 0, .issue 101 "N" 5, .ret 100 999999]).available_copies +
        (((runOps (Book.init 1 "T" "A" "I" 2)
          [.issue 100 "M" 0, .issue 101 "N" 5, .ret 100 999999]).issued_to.length : Int)) =
      (runOps (Book.init 1 "T" "A" "I" 2)
          [.issue 100 "M" 0, .issue 101 "N" 5, .ret 100 999999]).total_copies ∧
    0 ≤ (runOps (Book.init 1 "T" "A" "I" 2)
          [.issue 100 "M" 0, .issue 101 "N" 5, .ret 100 999999]).available_copies ∧
    (runOps (Book.init 1 "T" "A" "I" 2)
          [.issue 100 "M" 0, .issue 101 "N" 5, .ret 100 999999]).available_copies ≤
      (runOps (Book.init 1 "T" "A" "I" 2)
          [.issue 100 "M" 0, .issue 101 "N" 5, .ret 100 999999]).total_copies :=
  C1_copy_conservation 1 "T" "A" "I" 2 (by decide)
    [.issue 100 "M" 0, .issue 101 "N" 5, .ret 100 999999]

/-- C3: Issuing from an entry with zero available copies fails with
`NoCopiesAvailable`, whichever member requests it and at any time. -/
theorem C3_no_copies (b : Book) (mid : Nat) (nm : String) (now : Int)
    (h : b.available_copies = 0) :
    b.issue_book mid nm now = .error .NoCopiesAvailable := by
  simp [Book.issue_book, Book.is_available, h]

theorem C3_no_copies_witness :
    (⟨1, "T", "A", "I", 1, 0, []⟩ : Book).issue_book 5 "X" 7 =
      .error .NoCopiesAvailable :=
  C3_no_copies ⟨1, "T", "A", "I", 1, 0, []⟩ 5 "X" 7 rfl

/-- C7: Returning from an entry holding no active loan for the member
fails with `NotBorrowedByMember` and leaves the entry (its total copies,
available copies and loan map) unchanged. -/
theorem C7_failed_return_unchanged (b : Book) (mid : Nat) (now : Int)
    (h : lookupKey b.issued_to mid = none) :
    b.return_book mid now = .error .NotBorrowedByMember ∧
    applyOp b (.ret mid now) = b := by
  have h1 : b.return_book mid now = .error .NotBorrowedByMember := by
    unfold Book.return_book
    rw [h]
  exact ⟨h1, by simp only [applyOp, h1]⟩

theorem C7_failed_return_unchanged_witness :
    (⟨1, "T", "A", "I", 2, 2, []⟩ : Book).return_book 100 0 =
      .error .NotBorrowedByMember ∧
    applyOp (⟨1, "T", "A", "I", 2, 2, []⟩ : Book) (.ret 100 0) =
      (⟨1, "T", "A", "I", 2, 2, []⟩ : Book) :=
  C7_failed_return_unchanged ⟨1, "T", "A", "I", 2, 2, []⟩ 100 0 rfl

theorem loan_persists {b : Book} {mid : Nat}
    (h : (lookupKey b.issued_to mid).isSome = true) (ops : List BookOp)
    (hops : ∀ t, BookOp.ret mid t ∉ ops) :
    (lookupKey (runOps b ops).issued_to mid).isSome = true := by
  induction ops generalizing b with
  | nil => exact h
  | cons op rest ih =>
    refine ih ?_ (fun t ht => hops t (List.mem_cons_of_mem _ ht))
    cases op with
    | issue mid' nm now =>
      cases hb : b.issue_book mid' nm now with
      | error e => simpa [applyOp, hb] using h
      | ok p =>
        obtain ⟨rec, b'⟩ := p
        simp only [applyOp, hb]
        obtain ⟨_, hnone, _, hb'⟩ := issue_book_ok hb
        subst hb'
        show (lookupKey (b.issued_to ++ [(mid', rec)]) mid).isSome = true
        obtain ⟨v, hv⟩ := Option.isSome_iff_exists.mp h
        rw [lookupKey_append_some hv]
        rfl
    | ret mid' now =>
      have hne : mid ≠ mid' := by
        intro hcontra
        exact hops now (hcontra ▸ List.mem_cons_self _ _)
      cases hb : b.return_book mid' now with
      | error e => simpa [applyOp, hb] using h
      | ok p =>
        obtain ⟨info, b'⟩ := p
        simp only [applyOp, hb]
        obtain ⟨rec, hsome, _, hb'⟩ := return_book_ok hb
        subst hb'
        show (lookupKey (eraseKey b.issued_to mid') mid).isSome = true
        rw [lookupKey_eraseKey_ne hne]
        exact h

/-- C2 counterexample: with a single-copy entry, the member issues the one
copy, and the second issue by the same member (no return in between)
fails with `NoCopiesAvailable`, not `AlreadyBorrowed`, because the source
checks availability before the duplicate-loan condition. -/
theorem C2_counterexample :
    (Book.init 1 "T" "A" "I" 1).issue_book 100 "M" 0 =
      .ok (⟨100, "M", 0, 1209600⟩,
        ⟨1, "T", "A", "I", 1, 0, [(100, ⟨100, "M", 0, 1209600⟩)]⟩) ∧
    (⟨1, "T", "A", "I", 1, 0, [(100, ⟨100, "M", 0, 1209600⟩)]⟩ : Book).issue_book
        100 "M" 1 = .error .NoCopiesAvailable ∧
    LibError.NoCopiesAvailable ≠ LibError.AlreadyBorrowed := by
  decide

/-- C2 (amended): after a successful issue for a (book, member) pair and
any further calls on the entry among which no return by that member
occurs, a second issue for the pair fails: with `AlreadyBorrowed` when
copies are still available at the second call, and with
`NoCopiesAvailable` when none are (the availability check runs first). -/
theorem C2_second_issue (b : Book) (mid : Nat) (nm : String) (now : Int)
    (rec : Loan) (b₁ : Book)
    (hissue : b.issue_book mid nm now = .ok (rec, b₁))
    (ops : List BookOp) (hops : ∀ t, BookOp.ret mid t ∉ ops)
    (nm₂ : String) (now₂ : Int) :
    (runOps b₁ ops).issue_book mid nm₂ now₂ =
      .error (if (runOps b₁ ops).available_copies ≤ 0 then .NoCopiesAvailable
              else .AlreadyBorrowed) := by
  obtain ⟨havail, hnone, hrec, hb₁⟩ := issue_book_ok hissue
  have h0 : (lookupKey b₁.issued_to mid).isSome = true := by
    subst hb₁
    show (lookupKey (b.issued_to ++ [(mid, rec)]) mid).isSome = true
    rw [lookupKey_append_none hnone]
    simp [lookupKey]
  have h1 := loan_persists h0 ops hops
  by_cases h2 : (runOps b₁ ops).available_copies ≤ 0
  · rw [if_pos h2]
    have hav : (runOps b₁ ops).is_available = false := by
      simp only [Book.is_available, decide_eq_false_iff_not]
      omega
    simp [Book.issue_book, hav]
  · rw [if_neg h2]
    have hav : (runOps b₁ ops).is_available = true := by
      simp only [Book.is_available, decide_eq_true_eq]
      omega
    simp [Book.issue_book, hav, h1]

theorem C2_second_issue_witness :
    (runOps (⟨1, "T", "A", "I", 2, 1, [(100, ⟨100, "M", 0, 1209600⟩)]⟩ : Book)
        []).issue_book 100 "M" 5 =
      .error
        (if (runOps (⟨1, "T", "A", "I", 2, 1,
              [(100, ⟨100, "M", 0, 1209600⟩)]⟩ : Book) []).available_copies ≤ 0
         then .NoCopiesAvailable else .AlreadyBorrowed) :=
  C2_second_issue (Book.init 1 "T" "A" "I" 2) 100 "M" 0
    ⟨100, "M", 0, 1209600⟩
    ⟨1, "T", "A", "I", 2, 1, [(100, ⟨100, "M", 0, 1209600⟩)]⟩
    (by decide) [] (fun t ht => by cases ht) "M" 5

/-- C4: a return of an active loan succeeds; it is not overdue exactly at
the due timestamp (strict comparison), the overdue day count is the
whole-day floor of (now − due) when the return is late and 0 otherwise,
and the fine is the overdue day count times the daily fine rate. -/
theorem C4_overdue_fine (b : Book) (mid : Nat) (now : Int) (rec : Loan)
    (h : lookupKey b.issued_to mid = some rec) :
    ∃ info b', b.return_book mid now = .ok (info, b') ∧
      (now = rec.due_date → info.is_overdue = false) ∧
      (info.is_overdue = true ↔ rec.due_date < now) ∧
      (rec.due_date < now →
        info.overdue_days = (now - rec.due_date).fdiv secondsPerDay) ∧
      (¬ rec.due_date < now → info.overdue_days = 0) ∧
      info.fine = info.overdue_days * dailyFineRate := by
  refine ⟨_, _, return_book_eq now h, ?_, ?_, ?_, ?_, ?_⟩
  · intro he
    simp [he]
  · simp
  · intro hlt
    simp [if_pos hlt, daysBetween]
  · intro hlt
    simp [if_neg hlt]
  · by_cases hlt : rec.due_date < now
    · simp [if_pos hlt]
    · simp [if_neg hlt]

theorem C4_overdue_fine_witness :
    ∃ info b',
      (⟨1, "T", "A", "I", 1, 0, [(100, ⟨100, "M", 0, 1209600⟩)]⟩ : Book).return_book
          100 1209600 = .ok (info, b') ∧
      ((1209600 : Int) = (⟨100, "M", 0, 1209600⟩ : Loan).due_date →
        info.is_overdue = false) ∧
      (info.is_overdue = true ↔ (⟨100, "M", 0, 1209600⟩ : Loan).due_date < 1209600) ∧
      ((⟨100, "M", 0, 1209600⟩ : Loan).due_date < 1209600 →
        info.overdue_days =
          ((1209600 : Int) - (⟨100, "M", 0, 1209600⟩ : Loan).due_date).fdiv secondsPerDay) ∧
      (¬ (⟨100, "M", 0, 1209600⟩ : Loan).due_date < 1209600 →
        info.overdue_days = 0) ∧
      info.fine = info.overdue_days * dailyFineRate :=
  C4_overdue_fine ⟨1, "T", "A", "I", 1, 0, [(100, ⟨100, "M", 0, 1209600⟩)]⟩
    100 1209600 ⟨100, "M", 0, 1209600⟩ rfl

theorem lib_issue_ok {lib : Library} {bid mid : Nat} {now : Int}
    {rec : Loan} {lib₁ : Library}
    (h : lib.issue_book bid mid now = .ok (rec, lib₁)) :
    ∃ book member book',
      lookupKey lib.books bid = some book ∧
      lookupKey lib.members mid = some member ∧
      book.issue_book mid member.name now = .ok (rec, book') ∧
      lib₁ = { lib with
        books := updateKey lib.books bid book',
        members := updateKey lib.members mid (member.borrow_book bid) } := by
  unfold Library.issue_book at h
  split at h
  · simp at h
  · rename_i book hbook
    split at h
    · simp at h
    · rename_i member hmember
      split at h
      · rename_i e hie
        simp at h
      · rename_i issue_record book' hie
        simp only [Except.ok.injEq, Prod.mk.injEq] at h
        obtain ⟨hrec, hlib⟩ := h
        exact ⟨book, member, book', hbook, hmember, hrec ▸ hie, hlib.symm⟩

theorem lib_return_info {lib : Library} {bid mid : Nat} {book : Book}
    {member : Member} {rec : Loan} (now : Int)
    (hbook : lookupKey lib.books bid = some book)
    (hmember : lookupKey lib.members mid = some member)
    (hloan : lookupKey book.issued_to mid = some rec) :
    ∃ lib₂, lib.return_book bid mid now =
      .ok (⟨daysBetween now rec.issue_date, decide (rec.due_date < now),
        (if rec.due_date < now then daysBetween now rec.due_date else 0),
        (if rec.due_date < now then daysBetween now rec.due_date * dailyFineRate
         else 0)⟩, lib₂) := by
  simp only [Library.return_book, hbook, hmember, return_book_eq now hloan]
  exact ⟨_, rfl⟩

/-- C5: after a successful `issueBook(b, m, t0)`, returning through the
ledger at `t0 + 14 days` succeeds with `isOverdue = false` and zero fine,
while returning at `t0 + 20 days` succeeds with 6 overdue days and a fine
of 6 times the daily rate. -/
theorem C5_round_trip (lib : Library) (bid mid : Nat) (t0 : Int)
    (rec : Loan) (lib₁ : Library)
    (h : lib.issue_book bid mid t0 = .ok (rec, lib₁)) :
    (∃ info lib₂,
      lib₁.return_book bid mid (t0 + 14 * secondsPerDay) = .ok (info, lib₂) ∧
      info.is_overdue = false ∧ info.fine = 0) ∧
    (∃ info lib₂,
      lib₁.return_book bid mid (t0 + 20 * secondsPerDay) = .ok (info, lib₂) ∧
      info.overdue_days = 6 ∧ info.fine = 6 * dailyFineRate) := by
  obtain ⟨book, member, book', hbook, hmember, hie, hlib₁⟩ := lib_issue_ok h
  obtain ⟨havail, hnone, hrec, hbook'⟩ := issue_book_ok hie
  have hbook₁ : lookupKey lib₁.books bid = some book' := by
    subst hlib₁
    exact lookupKey_updateKey_self hbook book'
  have hmember₁ : lookupKey lib₁.members mid = some (member.borrow_book bid) := by
    subst hlib₁
    exact lookupKey_updateKey_self hmember _
  have hloan : lookupKey book'.issued_to mid = some rec := by
    subst hbook'
    show lookupKey (book.issued_to ++ [(mid, rec)]) mid = some rec
    rw [lookupKey_append_none hnone]
    simp [lookupKey]
  have h14 : rec.due_date = t0 + 14 * secondsPerDay := by
    subst hrec
    show t0 + loanPeriodDays * secondsPerDay = t0 + 14 * secondsPerDay
    norm_num [loanPeriodDays]
  constructor
  · obtain ⟨lib₂, hret⟩ :=
      lib_return_info (t0 + 14 * secondsPerDay) hbook₁ hmember₁ hloan
    refine ⟨_, lib₂, hret, ?_, ?_⟩
    · show decide (rec.due_date < t0 + 14 * secondsPerDay) = false
      rw [h14]
      simp
    · show (if rec.due_date < t0 + 14 * secondsPerDay
          then daysBetween (t0 + 14 * secondsPerDay) rec.due_date * dailyFineRate
          else 0) = 0
      rw [h14]
      simp
  · obtain ⟨lib₂, hret⟩ :=
      lib_return_info (t0 + 20 * secondsPerDay) hbook₁ hmember₁ hloan
    have hlt : rec.due_date < t0 + 20 * secondsPerDay := by
      rw [h14]
      have : (0 : Int) < secondsPerDay := by norm_num [secondsPerDay]
      nlinarith
    have hdays : daysBetween (t0 + 20 * secondsPerDay) rec.due_date = 6 := by
      unfold daysBetween
      rw [h14]
      have hsub : t0 + 20 * secondsPerDay - (t0 + 14 * secondsPerDay) = 518400 := by
        norm_num [secondsPerDay]
      rw [hsub]
      decide
    refine ⟨_, lib₂, hret, ?_, ?_⟩
    · show (if rec.due_date < t0 + 20 * secondsPerDay
          then daysBetween (t0 + 20 * secondsPerDay) rec.due_date else 0) = 6
      rw [if_pos hlt, hdays]
    · show (if rec.due_date < t0 + 20 * secondsPerDay
          then daysBetween (t0 + 20 * secondsPerDay) rec.due_date * dailyFineRate
          else 0) = 6 * dailyFineRate
      rw [if_pos hlt, hdays]

theorem C5_round_trip_witness :
    (∃ info lib₂,
      (⟨"L", [(1, ⟨1, "T", "A", "I", 1, 0, [(100, ⟨100, "N", 0, 1209600⟩)]⟩)],
        [(100, ⟨100, "N", "e", [1], 0⟩)], [("I", 1)], 2, 101⟩ : Library).return_book
          1 100 (0 + 14 * secondsPerDay) = .ok (info, lib₂) ∧
      info.is_overdue = false ∧ info.fine = 0) ∧
    (∃ info lib₂,
      (⟨"L", [(1, ⟨1, "T", "A", "I", 1, 0, [(100, ⟨100, "N", 0, 1209600⟩)]⟩)],
        [(100, ⟨100, "N", "e", [1], 0⟩)], [("I", 1)], 2, 101⟩ : Library).return_book
          1 100 (0 + 20 * secondsPerDay) = .ok (info, lib₂) ∧
      info.overdue_days = 6 ∧ info.fine = 6 * dailyFineRate) :=
  C5_round_trip
    ⟨"L", [(1, Book.init 1 "T" "A" "I" 1)], [(100, ⟨100, "N", "e", [], 0⟩)],
      [("I", 1)], 2, 101⟩
    1 100 0 ⟨100, "N", 0, 1209600⟩
    ⟨"L", [(1, ⟨1, "T", "A", "I", 1, 0, [(100, ⟨100, "N", 0, 1209600⟩)]⟩)],
      [(100, ⟨100, "N", "e", [1], 0⟩)], [("I", 1)], 2, 101⟩
    (by decide)

/-- C6: registering an already-indexed ISBN creates no new entry, adds the
given copies to the existing entry's total and available counts, and
returns the existing identifier; in particular registering the same ISBN
with 2 and then 3 copies yields one entry with total 5 and the same
identifier from both calls. -/
theorem C6_isbn_merge :
    (∀ (lib : Library) (title author isbn : String) (copies : Int),
      0 < copies →
      ∀ bid book, lookupKey lib.isbn_index (pyStrip isbn) = some bid →
        lookupKey lib.books bid = some book →
        ∃ lib', lib.add_book title author isbn copies = .ok (bid, lib') ∧
          lib'.books.map Prod.fst = lib.books.map Prod.fst ∧
          lookupKey lib'.books bid = some
            { book with total_copies := book.total_copies + copies,
                        available_copies := book.available_copies + copies }) ∧
    (∀ nm title author isbn : String, ∃ bid lib₁ lib₂ book,
      (Library.init nm).add_book title author isbn 2 = .ok (bid, lib₁) ∧
      lib₁.add_book title author isbn 3 = .ok (bid, lib₂) ∧
      lookupKey lib₂.books bid = some book ∧ book.total_copies = 5 ∧
      lib₂.books.map Prod.fst = [bid]) := by
  have general : ∀ (lib : Library) (title author isbn : String) (copies : Int),
      0 < copies →
      ∀ bid book, lookupKey lib.isbn_index (pyStrip isbn) = some bid →
        lookupKey lib.books bid = some book →
        ∃ lib', lib.add_book title author isbn copies = .ok (bid, lib') ∧
          lib'.books.map Prod.fst = lib.books.map Prod.fst ∧
          lookupKey lib'.books bid = some
            { book with total_copies := book.total_copies + copies,
                        available_copies := book.available_copies + copies } := by
    intro lib title author isbn copies hc bid book hidx hbook
    have hadd : lib.add_book title author isbn copies =
        .ok (bid, { lib with books := updateKey lib.books bid { book with total_copies := book.total_copies + copies, available_copies := book.available_copies + copies } }) := by
      unfold Library.add_book
      rw [if_neg (by omega)]
      simp only [hidx, hbook]
    refine ⟨_, hadd, ?_, ?_⟩
    · show (updateKey lib.books bid _).map Prod.fst = _
      exact updateKey_map_fst _ _ _
    · exact lookupKey_updateKey_self hbook _
  refine ⟨general, ?_⟩
  intro nm title author isbn
  have h1 : (Library.init nm).add_book title author isbn 2 =
      .ok (1, ⟨nm,
        [(1, Book.init 1 (pyTitle (pyStrip title)) (pyTitle (pyStrip author))
          (pyStrip isbn) 2)],
        [], [(pyStrip isbn, 1)], 2, 100⟩) := rfl
  obtain ⟨lib₂, h2, hfst, hlook⟩ :=
    general ⟨nm,
        [(1, Book.init 1 (pyTitle (pyStrip title)) (pyTitle (pyStrip author))
          (pyStrip isbn) 2)],
        [], [(pyStrip isbn, 1)], 2, 100⟩
      title author isbn 3 (by norm_num) 1
      (Book.init 1 (pyTitle (pyStrip title)) (pyTitle (pyStrip author))
        (pyStrip isbn) 2)
      (by simp [lookupKey]) (by simp [lookupKey])
  refine ⟨1, _, lib₂, _, h1, h2, hlook, ?_, ?_⟩
  · show (2 : Int) + 3 = 5
    norm_num
  · rw [hfst]
    rfl

theorem C6_isbn_merge_witness :
    ∃ bid lib₁ lib₂ book,
      (Library.init "L").add_book "T" "A" "I" 2 = .ok (bid, lib₁) ∧
      lib₁.add_book "T" "A" "I" 3 = .ok (bid, lib₂) ∧
      lookupKey lib₂.books bid = some book ∧ book.total_copies = 5 ∧
      lib₂.books.map Prod.fst = [bid] :=
  C6_isbn_merge.2 "L" "T" "A" "I"

theorem lib_add_ok {lib : Library} {t a i : String} {c : Int} {bid : Nat}
    {lib' : Library} (h : lib.add_book t a i c = .ok (bid, lib')) :
    (∃ book, lookupKey lib.books bid = some book ∧
      lib' = { lib with books := updateKey lib.books bid { book with total_copies := book.total_copies + c, available_copies := book.available_copies + c } }) ∨
    (bid = lib.book_id_counter ∧
      lib' = { lib with books := lib.books ++ [(bid, Book.init bid (pyTitle (pyStrip t)) (pyTitle (pyStrip a)) (pyStrip i) c)], isbn_index := lib.isbn_index ++ [(pyStrip i, bid)], book_id_counter := lib.book_id_counter + 1 }) := by
  simp only [Library.add_book] at h
  split at h
  · simp at h
  · split at h
    · split at h
      · rename_i existing_book_id _ existing_book _
        simp only [Except.ok.injEq, Prod.mk.injEq] at h
        obtain ⟨hbid, hlib⟩ := h
        subst hbid
        exact Or.inl ⟨existing_book, by assumption, hlib.symm⟩
      · simp at h
    · simp only [Except.ok.injEq, Prod.mk.injEq] at h
      obtain ⟨hbid, hlib⟩ := h
      subst hbid
      exact Or.inr ⟨rfl, hlib.symm⟩

theorem lib_register_member_ok {lib : Library} {n e : String} {mid : Nat}
    {lib' : Library} (h : lib.register_member n e = .ok (mid, lib')) :
    mid = lib.member_id_counter ∧
    lib' = { lib with members := lib.members ++ [(mid, ⟨mid, pyTitle (pyStrip n), pyLower (pyStrip e), [], 0⟩)], member_id_counter := lib.member_id_counter + 1 } := by
  simp only [Library.register_member] at h
  split at h
  · simp at h
  · simp only [Except.ok.injEq, Prod.mk.injEq] at h
    obtain ⟨hmid, hlib⟩ := h
    subst hmid
    exact ⟨rfl, hlib.symm⟩

theorem lib_return_ok {lib : Library} {bid mid : Nat} {now : Int}
    {info : ReturnInfo} {lib₁ : Library}
    (h : lib.return_book bid mid now = .ok (info, lib₁)) :
    ∃ book member book',
      lookupKey lib.books bid = some book ∧
      lookupKey lib.members mid = some member ∧
      book.return_book mid now = .ok (info, book') ∧
      lib₁ = { lib with books := updateKey lib.books bid book', members := updateKey lib.members mid (if info.is_overdue then ((member.return_book bid).1).add_fine info.fine else (member.return_book bid).1) } := by
  unfold Library.return_book at h
  split at h
  · simp at h
  · rename_i book hbook
    split at h
    · simp at h
    · rename_i member hmember
      split at h
      · simp at h
      · rename_i info' book' hret
        simp only [Except.ok.injEq, Prod.mk.injEq] at h
        obtain ⟨hinfo, hlib⟩ := h
        subst hinfo
        exact ⟨book, member, book', hbook, hmember, hret, hlib.symm⟩

theorem hasLoan_books_eq {lib lib' : Library} (h : lib'.books = lib.books)
    (bid mid : Nat) : hasLoan lib' bid mid = hasLoan lib bid mid := by
  unfold hasLoan
  rw [h]

theorem hasLoan_members_irrel (lib : Library) (ms : List (Nat × Member))
    (mc : Nat) (b m : Nat) :
    hasLoan { lib with members := ms, member_id_counter := mc } b m =
      hasLoan lib b m := rfl

theorem hasLoan_update_ne {lib lib' : Library} {bid : Nat} {bk' : Book}
    (h : lib'.books = updateKey lib.books bid bk') {b : Nat} (hne : b ≠ bid)
    (m : Nat) : hasLoan lib' b m = hasLoan lib b m := by
  unfold hasLoan
  rw [h, lookupKey_updateKey_ne hne]

theorem hasLoan_update_self {lib lib' : Library} {bid : Nat} {bk bk' : Book}
    (h : lib'.books = updateKey lib.books bid bk')
    (hbk : lookupKey lib.books bid = some bk) (m : Nat) :
    hasLoan lib' bid m = (lookupKey bk'.issued_to m).isSome := by
  unfold hasLoan
  rw [h, lookupKey_updateKey_self hbk]

theorem hasLoan_append_new {lib lib' : Library} {nid : Nat} {nb : Book}
    (h : lib'.books = lib.books ++ [(nid, nb)]) (hempty : nb.issued_to = [])
    (b m : Nat) : hasLoan lib' b m = hasLoan lib b m := by
  unfold hasLoan
  rw [h]
  cases hb : lookupKey lib.books b with
  | some bk => rw [lookupKey_append_some hb]
  | none =>
    rw [lookupKey_append_none hb]
    by_cases hnid : nid = b
    · subst hnid
      simp [lookupKey, hempty]
    · simp [lookupKey, hnid]

/-- The borrowed-list/loan-record correspondence of the specification: for
every registered member, each book identifier occurs in the member's
borrowed list exactly once when the book holds an active loan for that
member, and not at all otherwise. -/
def borrowInv (lib : Library) : Prop :=
  ∀ mid m, lookupKey lib.members mid = some m → ∀ bid,
    m.borrowed_books.count bid = (if hasLoan lib bid mid then 1 else 0)

/-- Ledger well-formedness: identifier counters dominate all allocated
identifiers, per-book loan keys are distinct and belong to allocated
member identifiers, and the borrowed-list correspondence holds. -/
def LibWF (lib : Library) : Prop :=
  (∀ p ∈ lib.books, p.1 < lib.book_id_counter) ∧
  (∀ p ∈ lib.members, p.1 < lib.member_id_counter) ∧
  (∀ p ∈ lib.books, (p.2.issued_to.map Prod.fst).Nodup ∧
    ∀ q ∈ p.2.issued_to, q.1 < lib.member_id_counter) ∧
  borrowInv lib

theorem LibWF_add {lib : Library} {t a i : String} {c : Int} {bid : Nat}
    {lib' : Library} (hwf : LibWF lib)
    (h : lib.add_book t a i c = .ok (bid, lib')) : LibWF lib' := by
  obtain ⟨hbb, hmb, hloans, hinv⟩ := hwf
  rcases lib_add_ok h with ⟨bk, hbk, hl⟩ | ⟨hbid, hl⟩
  · subst hl
    refine ⟨?_, hmb, ?_, ?_⟩
    · intro p hp
      rcases mem_updateKey hp with hpe | hpm
      · subst hpe
        exact hbb (bid, bk) (lookupKey_some_mem hbk)
      · exact hbb _ hpm
    · intro p hp
      rcases mem_updateKey hp with hpe | hpm
      · subst hpe
        exact hloans (bid, bk) (lookupKey_some_mem hbk)
      · exact hloans _ hpm
    · intro mid m hm bidq
      have heq : hasLoan { lib with books := updateKey lib.books bid { bk with total_copies := bk.total_copies + c, available_copies := bk.available_copies + c } } bidq mid = hasLoan lib bidq mid := by
        by_cases hq : bidq = bid
        · subst hq
          rw [hasLoan_update_self rfl hbk]
          unfold hasLoan
          rw [hbk]
        · exact hasLoan_update_ne rfl hq _
      rw [heq]
      exact hinv mid m hm bidq
  · subst hl
    refine ⟨?_, hmb, ?_, ?_⟩
    · intro p hp
      rcases List.mem_append.mp hp with hpm | hpn
      · exact Nat.lt_succ_of_lt (hbb _ hpm)
      · rw [List.mem_singleton] at hpn
        subst hpn
        show bid < lib.book_id_counter + 1
        omega
    · intro p hp
      rcases List.mem_append.mp hp with hpm | hpn
      · exact hloans _ hpm
      · rw [List.mem_singleton] at hpn
        subst hpn
        constructor
        · show ((Book.init bid (pyTitle (pyStrip t)) (pyTitle (pyStrip a)) (pyStrip i) c).issued_to.map Prod.fst).Nodup
          simp [Book.init]
        · intro q hq
          simp [Book.init] at hq
    · intro mid m hm bidq
      rw [hasLoan_append_new rfl rfl bidq mid]
      exact hinv mid m hm bidq

theorem LibWF_register {lib : Library} {n e : String} {mid : Nat}
    {lib' : Library} (hwf : LibWF lib)
    (h : lib.register_member n e = .ok (mid, lib')) : LibWF lib' := by
  obtain ⟨hbb, hmb, hloans, hinv⟩ := hwf
  obtain ⟨hmid, hl⟩ := lib_register_member_ok h
  subst hl
  refine ⟨hbb, ?_, ?_, ?_⟩
  · intro p hp
    rcases List.mem_append.mp hp with hpm | hpn
    · exact Nat.lt_succ_of_lt (hmb _ hpm)
    · rw [List.mem_singleton] at hpn
      subst hpn
      show mid < lib.member_id_counter + 1
      omega
  · intro p hp
    exact ⟨(hloans p hp).1, fun q hq => Nat.lt_succ_of_lt ((hloans p hp).2 q hq)⟩
  · intro mid' m hm bidq
    rw [hasLoan_members_irrel lib]
    have hm' : lookupKey (lib.members ++ [(mid, ⟨mid, pyTitle (pyStrip n), pyLower (pyStrip e), [], 0⟩)]) mid' = some m := hm
    cases hold : lookupKey lib.members mid' with
    | some m' =>
      rw [lookupKey_append_some hold] at hm'
      injection hm' with hm'
      subst hm'
      exact hinv mid' m' hold bidq
    | none =>
      rw [lookupKey_append_none hold] at hm'
      by_cases hmc : mid = mid'
      · subst hmc
        have hm'' : (if mid = mid then some (⟨mid, pyTitle (pyStrip n), pyLower (pyStrip e), [], 0⟩ : Member) else none) = some m := hm'
        rw [if_pos rfl] at hm''
        injection hm'' with hm''
        subst hm''
        show List.count bidq [] = _
        have hno : hasLoan lib bidq mid = false := by
          unfold hasLoan
          cases hb : lookupKey lib.books bidq with
          | none => rfl
          | some bk =>
            have hbound := (hloans (bidq, bk) (lookupKey_some_mem hb)).2
            have : lookupKey bk.issued_to mid = none := by
              rw [lookupKey_eq_none]
              intro q hq hcontra
              rw [hmid] at hcontra
              exact absurd hcontra (Nat.ne_of_lt (hbound q hq))
            show (lookupKey bk.issued_to mid).isSome = false
            rw [this]
            rfl
        rw [hno]
        simp
      · have hm'' : (if mid = mid' then some (⟨mid, pyTitle (pyStrip n), pyLower (pyStrip e), [], 0⟩ : Member) else none) = some m := hm'
        rw [if_neg hmc] at hm''
        exact absurd hm'' (by simp)

theorem LibWF_issue {lib : Library} {bid mid : Nat} {now : Int} {rec : Loan}
    {lib₁ : Library} (hwf : LibWF lib)
    (h : lib.issue_book bid mid now = .ok (rec, lib₁)) : LibWF lib₁ := by
  obtain ⟨hbb, hmb, hloans, hinv⟩ := hwf
  obtain ⟨book, member, book', hbook, hmember, hie, hl⟩ := lib_issue_ok h
  obtain ⟨havail, hnone, hrec, hbook'⟩ := issue_book_ok hie
  subst hl
  subst hbook'
  refine ⟨?_, ?_, ?_, ?_⟩
  · intro p hp
    rcases mem_updateKey hp with hpe | hpm
    · subst hpe
      exact hbb (bid, book) (lookupKey_some_mem hbook)
    · exact hbb _ hpm
  · intro p hp
    rcases mem_updateKey hp with hpe | hpm
    · subst hpe
      exact hmb (mid, member) (lookupKey_some_mem hmember)
    · exact hmb _ hpm
  · intro p hp
    rcases mem_updateKey hp with hpe | hpm
    · subst hpe
      constructor
      · show (List.map Prod.fst (book.issued_to ++ [(mid, rec)])).Nodup
        rw [List.map_append, List.nodup_append]
        refine ⟨(hloans (bid, book) (lookupKey_some_mem hbook)).1, by simp, ?_⟩
        intro x hx hx'
        simp only [List.map_cons, List.map_nil, List.mem_singleton] at hx'
        subst hx'
        obtain ⟨q, hq, hqx⟩ := List.mem_map.mp hx
        exact lookupKey_eq_none.mp hnone q hq hqx
      · intro q hq
        rcases List.mem_append.mp hq with hq' | hq'
        · exact (hloans (bid, book) (lookupKey_some_mem hbook)).2 q hq'
        · rw [List.mem_singleton] at hq'
          subst hq'
          exact hmb (mid, member) (lookupKey_some_mem hmember)
    · exact hloans _ hpm
  · intro mid' m hm bidq
    have hm' : lookupKey (updateKey lib.members mid (member.borrow_book bid)) mid' = some m := hm
    by_cases hmid : mid' = mid
    · subst hmid
      rw [lookupKey_updateKey_self hmember] at hm'
      injection hm' with hm'
      subst hm'
      show (member.borrowed_books ++ [bid]).count bidq = _
      by_cases hbq : bidq = bid
      · subst hbq
        have h0 := hinv mid' member hmember bidq
        have hfalse : hasLoan lib bidq mid' = false := by
          unfold hasLoan
          rw [hbook]
          show (lookupKey book.issued_to mid').isSome = false
          rw [hnone]
          rfl
        rw [hfalse] at h0
        simp only [Bool.false_eq_true, if_false] at h0
        rw [hasLoan_update_self rfl hbook]
        show (member.borrowed_books ++ [bidq]).count bidq =
          if (lookupKey (book.issued_to ++ [(mid', rec)]) mid').isSome = true then 1 else 0
        rw [lookupKey_append_none hnone, List.count_append, h0]
        simp [lookupKey]
      · rw [hasLoan_update_ne rfl hbq]
        have hone : List.count bidq [bid] = 0 := by
          rw [List.count_singleton']
          exact if_neg (fun hh => hbq hh.symm)
        rw [List.count_append, hone, Nat.add_zero]
        exact hinv mid' member hmember bidq
    · rw [lookupKey_updateKey_ne hmid] at hm'
      by_cases hbq : bidq = bid
      · subst hbq
        rw [hasLoan_update_self rfl hbook]
        show m.borrowed_books.count bidq =
          if (lookupKey (book.issued_to ++ [(mid, rec)]) mid').isSome = true then 1 else 0
        have happ : lookupKey (book.issued_to ++ [(mid, rec)]) mid' = lookupKey book.issued_to mid' := by
          cases ho : lookupKey book.issued_to mid' with
          | some v => rw [lookupKey_append_some ho]
          | none =>
            rw [lookupKey_append_none ho]
            show (if mid = mid' then some rec else none) = none
            exact if_neg (fun hh => hmid hh.symm)
        rw [happ]
        have hthis := hinv mid' m hm' bidq
        have hhl : hasLoan lib bidq mid' = (lookupKey book.issued_to mid').isSome := by
          unfold hasLoan
          rw [hbook]
        rw [hhl] at hthis
        exact hthis
      · rw [hasLoan_update_ne rfl hbq]
        exact hinv mid' m hm' bidq
theorem LibWF_return {lib : Library} {bid mid : Nat} {now : Int}
    {info : ReturnInfo} {lib₁ : Library} (hwf : LibWF lib)
    (h : lib.return_book bid mid now = .ok (info, lib₁)) : LibWF lib₁ := by
  obtain ⟨hbb, hmb, hloans, hinv⟩ := hwf
  obtain ⟨book, member, book', hbook, hmember, hret, hl⟩ := lib_return_ok h
  obtain ⟨rec, hsome, hinfo, hbook'⟩ := return_book_ok hret
  subst hl
  subst hbook'
  have htrue : hasLoan lib bid mid = true := by
    unfold hasLoan
    rw [hbook]
    show (lookupKey book.issued_to mid).isSome = true
    rw [hsome]
    rfl
  have h1 := hinv mid member hmember bid
  rw [htrue] at h1
  simp only [if_true] at h1
  have hmem : bid ∈ member.borrowed_books :=
    List.count_pos_iff.mp (by omega)
  have hrb : (member.return_book bid).1 = { member with borrowed_books := member.borrowed_books.erase bid } := by
    unfold Member.return_book
    rw [if_pos hmem]
  have hb2 : (if info.is_overdue then ((member.return_book bid).1).add_fine info.fine else (member.return_book bid).1).borrowed_books = member.borrowed_books.erase bid := by
    by_cases hov : info.is_overdue <;> simp [hov, Member.add_fine, hrb]
  refine ⟨?_, ?_, ?_, ?_⟩
  · intro p hp
    rcases mem_updateKey hp with hpe | hpm
    · subst hpe
      exact hbb (bid, book) (lookupKey_some_mem hbook)
    · exact hbb _ hpm
  · intro p hp
    rcases mem_updateKey hp with hpe | hpm
    · subst hpe
      exact hmb (mid, member) (lookupKey_some_mem hmember)
    · exact hmb _ hpm
  · intro p hp
    rcases mem_updateKey hp with hpe | hpm
    · subst hpe
      constructor
      · show (List.map Prod.fst (eraseKey book.issued_to mid)).Nodup
        exact List.Nodup.sublist ((eraseKey_sublist _ _).map Prod.fst)
          (hloans (bid, book) (lookupKey_some_mem hbook)).1
      · intro q hq
        exact (hloans (bid, book) (lookupKey_some_mem hbook)).2 q
          ((eraseKey_sublist _ _).subset hq)
    · exact hloans _ hpm
  · intro mid' m hm bidq
    have hm' : lookupKey (updateKey lib.members mid (if info.is_overdue then ((member.return_book bid).1).add_fine info.fine else (member.return_book bid).1)) mid' = some m := hm
    by_cases hmid : mid' = mid
    · subst hmid
      rw [lookupKey_updateKey_self hmember] at hm'
      injection hm' with hm'
      subst hm'
      rw [hb2]
      by_cases hbq : bidq = bid
      · subst hbq
        rw [hasLoan_update_self rfl hbook]
        show (member.borrowed_books.erase bidq).count bidq =
          if (lookupKey (eraseKey book.issued_to mid') mid').isSome = true then 1 else 0
        rw [lookupKey_eraseKey_self (hloans (bidq, book) (lookupKey_some_mem hbook)).1]
        rw [List.count_erase_self, h1]
        simp
      · rw [hasLoan_update_ne rfl hbq, List.count_erase_of_ne hbq]
        exact hinv mid' member hmember bidq
    · rw [lookupKey_updateKey_ne hmid] at hm'
      by_cases hbq : bidq = bid
      · subst hbq
        rw [hasLoan_update_self rfl hbook]
        show m.borrowed_books.count bidq =
          if (lookupKey (eraseKey book.issued_to mid) mid').isSome = true then 1 else 0
        rw [lookupKey_eraseKey_ne hmid]
        have hthis := hinv mid' m hm' bidq
        have hhl : hasLoan lib bidq mid' = (lookupKey book.issued_to mid').isSome := by
          unfold hasLoan
          rw [hbook]
        rw [hhl] at hthis
        exact hthis
      · rw [hasLoan_update_ne rfl hbq]
        exact hinv mid' m hm' bidq

theorem LibWF_stepLib {lib : Library} (h : LibWF lib) (op : LibOp) :
    LibWF (stepLib lib op) := by
  cases op with
  | registerBook t a i c =>
    cases hc : lib.add_book t a i c with
    | error e =>
      simp only [stepLib, hc]
      exact h
    | ok p =>
      obtain ⟨bid, lib'⟩ := p
      simp only [stepLib, hc]
      exact LibWF_add h hc
  | registerMember n e =>
    cases hc : lib.register_member n e with
    | error e' =>
      simp only [stepLib, hc]
      exact h
    | ok p =>
      obtain ⟨mid, lib'⟩ := p
      simp only [stepLib, hc]
      exact LibWF_register h hc
  | issueBook bid mid now =>
    cases hc : lib.issue_book bid mid now with
    | error e =>
      simp only [stepLib, hc]
      exact h
    | ok p =>
      obtain ⟨rec, lib'⟩ := p
      simp only [stepLib, hc]
      exact LibWF_issue h hc
  | returnBook bid mid now =>
    cases hc : lib.return_book bid mid now with
    | error e =>
      simp only [stepLib, hc]
      exact h
    | ok p =>
      obtain ⟨info, lib'⟩ := p
      simp only [stepLib, hc]
      exact LibWF_return h hc

theorem LibWF_init (nm : String) : LibWF (Library.init nm) := by
  refine ⟨?_, ?_, ?_, ?_⟩
  · intro p hp
    simp [Library.init] at hp
  · intro p hp
    simp [Library.init] at hp
  · intro p hp
    simp [Library.init] at hp
  · intro mid m hm bid
    simp [Library.init, lookupKey] at hm

theorem LibWF_foldl {lib : Library} (h : LibWF lib) (ops : List LibOp) :
    LibWF (ops.foldl stepLib lib) := by
  induction ops generalizing lib with
  | nil => exact h
  | cons op rest ih => exact ih (LibWF_stepLib h op)

theorem LibWF_runLib (nm : String) (ops : List LibOp) : LibWF (runLib nm ops) :=
  LibWF_foldl (LibWF_init nm) ops

/-- C8: in every ledger state reachable from a fresh ledger by
register/issue/return operations, a book identifier appears in a member's
borrowed list if and only if that book holds an active loan record for
that member, and the identifier's multiplicity in the list is exactly 1
when the loan is active and 0 otherwise (so it occurs exactly once right
after a successful `issueBook` and zero times right after the matching
successful `returnBook`, both of which are again reachable states). -/
theorem C8_borrowed_iff_loan (nm : String) (ops : List LibOp) (mid : Nat)
    (m : Member) (hm : lookupKey (runLib nm ops).members mid = some m)
    (bid : Nat) :
    (bid ∈ m.borrowed_books ↔ hasLoan (runLib nm ops) bid mid = true) ∧
    m.borrowed_books.count bid =
      (if hasLoan (runLib nm ops) bid mid then 1 else 0) := by
  have hcount := (LibWF_runLib nm ops).2.2.2 mid m hm bid
  refine ⟨?_, hcount⟩
  by_cases hl : hasLoan (runLib nm ops) bid mid = true
  · rw [if_pos hl] at hcount
    exact ⟨fun _ => hl, fun _ => List.count_pos_iff.mp (by omega)⟩
  · rw [if_neg hl] at hcount
    constructor
    · intro hmem
      have := List.count_pos_iff.mpr hmem
      omega
    · intro hl'
      exact absurd hl' hl

theorem C8_borrowed_iff_loan_witness :
    ((1 : Nat) ∈ (⟨100, "N", "e", [1], 0⟩ : Member).borrowed_books ↔
      hasLoan (runLib "L" [.registerBook "T" "A" "I" 1, .registerMember "N" "E",
        .issueBook 1 100 0]) 1 100 = true) ∧
    (⟨100, "N", "e", [1], 0⟩ : Member).borrowed_books.count 1 =
      (if hasLoan (runLib "L" [.registerBook "T" "A" "I" 1,
          .registerMember "N" "E", .issueBook 1 100 0]) 1 100 then 1 else 0) :=
  C8_borrowed_iff_loan "L"
    [.registerBook "T" "A" "I" 1, .registerMember "N" "E", .issueBook 1 100 0]
    100 ⟨100, "N", "e", [1], 0⟩ (by decide) 1
